import Mathlib

/-!
Shallow embedding of the GrowtopiaLogin backend (three Express server
variants: src/index.ts, src/unnamed/part_000, src/unnamed/part_001).
JS strings are modelled as `List Char` (unicode scalar values); byte
buffers as `List Nat`.  The token codec operates only on ASCII patterns,
so the `List Char` level is faithful to the JS string level.
-/

namespace GrowLogin

/-- The characters of a string literal. -/
def toL (s : String) : List Char := s.data

/-- One UTF-8 encoded scalar value, as `Buffer.from(s, "utf-8")` encodes it. -/
def utf8EncodeChar (c : Char) : List Nat :=
  let n := c.toNat
  if n < 128 then [n]
  else if n < 2048 then [192 + n / 64, 128 + n % 64]
  else if n < 65536 then [224 + n / 4096, 128 + n / 64 % 64, 128 + n % 64]
  else [240 + n / 262144, 128 + n / 4096 % 64, 128 + n / 64 % 64, 128 + n % 64]

/-- UTF-8 bytes of a string. -/
def utf8Encode (s : List Char) : List Nat := s.flatMap utf8EncodeChar

/-- The standard base64 alphabet (RFC 4648), used by Buffer's base64 codec. -/
def base64Alphabet : List Char :=
  ("ABCDEFGHIJKLMNOPQRSTUVWXYZabcdefghijklmnopqrstuvwxyz0123456789+/").data

def b64digit (n : Nat) : Char := base64Alphabet.getD n 'A'

/-- Base64 of a byte list: `Buffer.prototype.toString("base64")`. -/
def base64Encode : List Nat → List Char
  | [] => []
  | [a] => [b64digit (a / 4), b64digit (a % 4 * 16), '=', '=']
  | [a, b] => [b64digit (a / 4), b64digit (a % 4 * 16 + b / 16), b64digit (b % 16 * 4), '=']
  | a :: b :: c :: rest =>
    b64digit (a / 4) :: b64digit (a % 4 * 16 + b / 16) ::
      b64digit (b % 16 * 4 + c / 64) :: b64digit (c % 64) :: base64Encode rest

/-- `Buffer.from(s, "utf-8").toString("base64")` on a JS string. -/
def toB64 (s : List Char) : List Char := base64Encode (utf8Encode s)

/-- Index of a base64 digit, `none` for characters outside the alphabet.
Models the leniency of `Buffer.from(-, "base64")`: foreign characters are
skipped, they never raise. -/
def b64val (c : Char) : Option Nat :=
  let i := base64Alphabet.indexOf c
  if i < 64 then some i else none

/-- Regroup 6-bit digits into bytes (a lone trailing digit carries no byte). -/
def b64Regroup : List Nat → List Nat
  | a :: b :: c :: d :: rest =>
    (a * 4 + b / 16) :: (b % 16 * 16 + c / 4) :: (c % 4 * 64 + d) :: b64Regroup rest
  | [a, b, c] => [a * 4 + b / 16, b % 16 * 16 + c / 4]
  | [a, b] => [a * 4 + b / 16]
  | [_] => []
  | [] => []

/-- Lenient base64 decoding of `Buffer.from(s, "base64")`: data ends at the
first padding character, anything outside the alphabet is ignored, and the
function is total — it never raises, whatever the input. -/
def base64Decode (s : List Char) : List Nat :=
  b64Regroup ((s.takeWhile (· ≠ '=')).filterMap b64val)

def isContByte (b : Nat) : Bool := decide (128 ≤ b ∧ b < 192)

def replChar : Char := Char.ofNat 65533

/-- Lenient UTF-8 decoding with U+FFFD replacement, as
`Buffer.prototype.toString("utf-8")` behaves: total, never raises.  The
claims below depend only on its totality; decoded tokens are quantified
over directly at the `List Char` level. -/
def utf8Decode : List Nat → List Char
  | [] => []
  | b :: rest =>
    if b < 128 then Char.ofNat b :: utf8Decode rest
    else if b < 194 then replChar :: utf8Decode rest
    else if b < 224 then
      match hr : rest with
      | b2 :: rest2 =>
        if isContByte b2 then Char.ofNat ((b - 192) * 64 + (b2 - 128)) :: utf8Decode rest2
        else replChar :: utf8Decode rest
      | [] => [replChar]
    else if b < 240 then
      match hr : rest with
      | b2 :: b3 :: rest3 =>
        if isContByte b2 && isContByte b3 then
          let n := (b - 224) * 4096 + (b2 - 128) * 64 + (b3 - 128)
          (if decide (55296 ≤ n ∧ n ≤ 57343) || decide (n < 2048) then replChar
           else Char.ofNat n) :: utf8Decode rest3
        else replChar :: utf8Decode rest
      | _ => replChar :: utf8Decode rest
    else if b < 245 then
      match hr : rest with
      | b2 :: b3 :: b4 :: rest4 =>
        if isContByte b2 && isContByte b3 && isContByte b4 then
          let n := (b - 240) * 262144 + (b2 - 128) * 4096 + (b3 - 128) * 64 + (b4 - 128)
          (if decide (n < 65536) || decide (1114111 < n) then replChar
           else Char.ofNat n) :: utf8Decode rest4
        else replChar :: utf8Decode rest
      | _ => replChar :: utf8Decode rest
    else replChar :: utf8Decode rest
termination_by l => l.length
decreasing_by all_goals first
  | (subst hr; simp_arith)
  | simp_arith

/-- First occurrence of the pattern `pat` inside `s`: `some (pre, post)`
with `s = pre ++ pat ++ post` and `pre` shortest, or `none`.  This is the
search primitive behind the JS `includes`, string `replace` and the
`/(_token=)[^&]*/` regex replace of the handlers. -/
def findSplit (pat : List Char) : List Char → Option (List Char × List Char)
  | [] => if pat.isEmpty then some ([], []) else none
  | c :: s =>
    if pat.isPrefixOf (c :: s) then some ([], (c :: s).drop pat.length)
    else
      match findSplit pat s with
      | some (p, q) => some (c :: p, q)
      | none => none

/-- JS `String.prototype.includes`. -/
def containsL (pat s : List Char) : Bool := (findSplit pat s).isSome

/-- JS `String.prototype.replace` with a plain-string pattern: replaces the
first occurrence only. -/
def replaceFirst (pat rep s : List Char) : List Char :=
  match findSplit pat s with
  | none => s
  | some (p, q) => p ++ rep ++ q

def tokenPat : List Char := ("_token=").data

def sentinelPat : List Char := ("_token=e30=").data

def e30L : List Char := ("e30=").data

/-- `decoded.replace(/(_token=)[^&]*/, "$1" + rep)`: replace the first
occurrence of `_token=` and every following character up to the next `&`
(or the end) by `_token=` followed by `rep`.  Shared verbatim by all three
server variants. -/
def replaceTokenField (rep s : List Char) : List Char :=
  match findSplit tokenPat s with
  | none => s
  | some (p, q) => p ++ tokenPat ++ rep ++ q.dropWhile (· ≠ '&')

/-- JS `String.prototype.split` with a single-character separator. -/
def splitCh (sep : Char) : List Char → List (List Char)
  | [] => [[]]
  | c :: rest =>
    if c = sep then [] :: splitCh sep rest
    else
      match splitCh sep rest with
      | s :: ss => (c :: s) :: ss
      | [] => [[c]]

/-- The JS regex class of whitespace (ECMAScript WhiteSpace and
LineTerminator), by code point: TAB LF VT FF CR SP NBSP OGHAM,
U+2000-200A, LS PS NNBSP MMSP IDSP BOM. -/
def isJsWs (c : Char) : Bool :=
  let n := c.toNat
  n == 9 || n == 10 || n == 11 || n == 12 || n == 13 || n == 32 ||
  n == 160 || n == 5760 || decide (8192 ≤ n ∧ n ≤ 8202) ||
  n == 8232 || n == 8233 || n == 8239 || n == 8287 || n == 12288 || n == 65279

/-- JS `s.split(/\s+/)`: split at every maximal nonempty whitespace run; a
leading or trailing run contributes an empty piece. -/
def splitWs : List Char → List (List Char)
  | [] => [[]]
  | [c] => if isJsWs c then [[], []] else [[c]]
  | c :: c2 :: rest =>
    if isJsWs c then
      if isJsWs c2 then splitWs (c2 :: rest)
      else [] :: splitWs (c2 :: rest)
    else
      match splitWs (c2 :: rest) with
      | s :: ss => (c :: s) :: ss
      | [] => [[c]]

/-- Join with `&` (inverse of `splitCh '&'`). -/
def joinAmp : List (List Char) → List Char
  | [] => []
  | [s] => s
  | s :: ss => s ++ '&' :: joinAmp ss

def joinComma : List (List Char) → List Char
  | [] => []
  | [s] => s
  | s :: ss => s ++ ',' :: joinComma ss

def hexDigit (n : Nat) : Char := (("0123456789abcdef").data).getD n '0'

/-- The escape `JSON.stringify` applies inside a string literal. -/
def jsonEscapeChar (c : Char) : List Char :=
  if c = '"' then ['\\', '"']
  else if c = '\\' then ['\\', '\\']
  else if c = '\x08' then ['\\', 'b']
  else if c = '\t' then ['\\', 't']
  else if c = '\n' then ['\\', 'n']
  else if c = '\x0c' then ['\\', 'f']
  else if c = '\r' then ['\\', 'r']
  else if c.toNat < 32 then
    ['\\', 'u', '0', '0', hexDigit (c.toNat / 16), hexDigit (c.toNat % 16)]
  else [c]

def jsonQuote (s : List Char) : List Char :=
  '"' :: (s.flatMap jsonEscapeChar) ++ ['"']

def digitsVal (k : List Char) : Nat :=
  k.foldl (fun a c => a * 10 + (c.toNat - 48)) 0

/-- A JS object key that is a canonical array index (such keys are
enumerated first, in ascending numeric order). -/
def isArrayIndex (k : List Char) : Bool :=
  !k.isEmpty && k.all Char.isDigit &&
    (k == ['0'] || k.head? != some '0') && decide (digitsVal k < 4294967295)

def insertByVal (p : List Char × List Char) :
    List (List Char × List Char) → List (List Char × List Char)
  | [] => [p]
  | q :: qs => if digitsVal p.1 < digitsVal q.1 then p :: q :: qs else q :: insertByVal p qs

/-- JS own-property enumeration order: canonical array indices ascending,
then the remaining string keys in insertion order. -/
def orderKeys (m : List (List Char × List Char)) : List (List Char × List Char) :=
  ((m.filter fun p => isArrayIndex p.1).foldl (fun acc p => insertByVal p acc) []) ++
    (m.filter fun p => !isArrayIndex p.1)

/-- `JSON.stringify` of a `Record<string, string>` held as an association
list in insertion order. -/
def jsonStringify (m : List (List Char × List Char)) : List Char :=
  '{' :: joinComma ((orderKeys m).map fun p => jsonQuote p.1 ++ ':' :: jsonQuote p.2) ++ ['}']

/-- `tData[key] = value` on a `Record<string, string>`: an existing key
keeps its position and gets the new value, a new key is appended. -/
def jsInsert (t : List (List Char × List Char)) (k v : List Char) :
    List (List Char × List Char) :=
  if t.any fun p => p.1 == k then
    t.map fun p => if p.1 == k then (k, v) else p
  else t ++ [(k, v)]

/-- One iteration of part_001's legacy-blob loop (lines 132-141): find the
first `|`; no `|` discards the token; an empty key (`!key`) discards it;
otherwise `tData[key] = value` (`value !== undefined` always holds). -/
def legacyLine (t : List (List Char × List Char)) (line : List Char) :
    List (List Char × List Char) :=
  match findSplit ['|'] line with
  | none => t
  | some (key, value) => if key.isEmpty then t else jsInsert t key value

/-- part_001 lines 129-141: `clientData.split(/\s+/)` folded through the
legacy-blob loop. -/
def legacyParse (clientData : List Char) : List (List Char × List Char) :=
  (splitWs clientData).foldl legacyLine []

/-- part_001 lines 128-145: when the decoded token contains the substring
`_token=e30=`, replace its first occurrence by `_token=` followed by
base64 of the JSON serialization of the parsed client data. -/
def sentinelStep (decoded clientData : List Char) : List Char :=
  if containsL sentinelPat decoded then
    replaceFirst sentinelPat (tokenPat ++ toB64 (jsonStringify (legacyParse clientData)))
      decoded
  else decoded

/-- part_001 checktoken, decoded-text level: sentinel migration, then the
unconditional `_token` substitution (lines 147-152). -/
def checkTokenPlain001 (decoded clientData : List Char) : List Char :=
  replaceTokenField (toB64 clientData) (sentinelStep decoded clientData)

/-- index.ts handleCheckToken, decoded-text level (lines 143-146): only the
regex substitution, no sentinel branch. -/
def checkTokenPlainIndex (decoded clientData : List Char) : List Char :=
  replaceTokenField (toB64 clientData) decoded

/-- The `data` object a checktoken body may nest. -/
structure CheckPayload where
  refreshToken : Option (List Char)
  clientData : Option (List Char)
deriving DecidableEq

/-- A checktoken request body: optional nested `data` object, optional
top-level fields. -/
structure CheckBody where
  data : Option CheckPayload
  refreshToken : Option (List Char)
  clientData : Option (List Char)
deriving DecidableEq

/-- part_001 line 115: `'data' in body ? body.data?.refreshToken : body.refreshToken`. -/
def rt001 (b : CheckBody) : Option (List Char) :=
  match b.data with
  | some p => p.refreshToken
  | none => b.refreshToken

def cd001 (b : CheckBody) : Option (List Char) :=
  match b.data with
  | some p => p.clientData
  | none => b.clientData

/-- index.ts line 128: `body?.data?.refreshToken ?? body?.refreshToken`
(`??` falls through only on null/undefined, never on the empty string). -/
def rtIndex (b : CheckBody) : Option (List Char) :=
  match b.data with
  | some p =>
    match p.refreshToken with
    | some s => some s
    | none => b.refreshToken
  | none => b.refreshToken

def cdIndex (b : CheckBody) : Option (List Char) :=
  match b.data with
  | some p =>
    match p.clientData with
    | some s => some s
    | none => b.clientData
  | none => b.clientData

/-- JS falsiness of an optional string: absent or empty. -/
def jsFalsy : Option (List Char) → Bool
  | none => true
  | some s => s.isEmpty

structure HttpResponse where
  status : Nat
  body : List Char
deriving DecidableEq

def missingJson : List Char :=
  jsonStringify [(toL ("status"), toL ("error")),
    (toL ("message"), toL ("Missing refreshToken or clientData"))]

/-- part_001 lines 154-156: success body built by raw template-literal
interpolation (the token is not JSON-escaped). -/
def successJson001 (tok : List Char) : List Char :=
  toL ("\x7b\"status\":\"success\",\"message\":\"Token is valid.\",\"token\":\"") ++ tok ++
    toL ("\",\"url\":\"\",\"accountType\":\"growtopia\"\x7d")

/-- index.ts lines 150-156: success body via `res.json` (JSON-escaped). -/
def successJsonIndex (tok : List Char) : List Char :=
  jsonStringify [(toL ("status"), toL ("success")),
    (toL ("message"), toL ("Token is valid.")),
    (toL ("token"), tok), (toL ("url"), []),
    (toL ("accountType"), toL ("growtopia"))]

/-- part_001 /player/growid/validate/checktoken handler (lines 109-164). -/
def checkTokenHandler001 (b : CheckBody) : HttpResponse :=
  if jsFalsy (rt001 b) || jsFalsy (cd001 b) then ⟨400, missingJson⟩
  else
    let decoded := utf8Decode (base64Decode ((rt001 b).getD []))
    ⟨200, successJson001 (toB64 (checkTokenPlain001 decoded ((cd001 b).getD [])))⟩

/-- index.ts handleCheckToken (lines 123-164). -/
def checkTokenHandlerIndex (b : CheckBody) : HttpResponse :=
  if jsFalsy (rtIndex b) || jsFalsy (cdIndex b) then ⟨400, missingJson⟩
  else
    let decoded := utf8Decode (base64Decode ((rtIndex b).getD []))
    ⟨200, successJsonIndex (toB64 (checkTokenPlainIndex decoded ((cdIndex b).getD [])))⟩

/-- A validate-login request body (`Record<string, string>` access: a
missing key reads as `undefined`). -/
structure ValidateBody where
  _token : Option (List Char)
  growId : Option (List Char)
  password : Option (List Char)
  serverName : Option (List Char)
deriving DecidableEq

/-- JS template-literal interpolation of a possibly-undefined string:
`undefined` prints as the literal text `undefined`. -/
def jsShow : Option (List Char) → List Char
  | some s => s
  | none => toL ("undefined")

/-- index.ts lines 94-101: fields defaulted with `?? ''` before
interpolation. -/
def validatePlainIndex (b : ValidateBody) : List Char :=
  toL ("_token=") ++ (b._token.getD []) ++ toL ("&growId=") ++ (b.growId.getD []) ++
    toL ("&password=") ++ (b.password.getD []) ++ toL ("&reg=0")

/-- part_001 lines 80-86: raw interpolation, no defaulting. -/
def validatePlain001 (b : ValidateBody) : List Char :=
  toL ("_token=") ++ jsShow b._token ++ toL ("&growId=") ++ jsShow b.growId ++
    toL ("&password=") ++ jsShow b.password ++ toL ("&reg=0")

/-- part_000 lines 119-134: raw interpolation plus
`serverName = formData.serverName || ''`. -/
def validatePlain000 (b : ValidateBody) : List Char :=
  toL ("_token=") ++ jsShow b._token ++ toL ("&growId=") ++ jsShow b.growId ++
    toL ("&password=") ++ jsShow b.password ++ toL ("&serverName=") ++
    (b.serverName.getD []) ++ toL ("&reg=0")

/-- `res.json({status:'success', message:'Account Validated.', token, url:'',
accountType:'growtopia'})`, shared by index.ts and part_001. -/
def validateJson (tok : List Char) : List Char :=
  jsonStringify [(toL ("status"), toL ("success")),
    (toL ("message"), toL ("Account Validated.")),
    (toL ("token"), tok), (toL ("url"), []),
    (toL ("accountType"), toL ("growtopia"))]

def validateHandlerIndex (b : ValidateBody) : HttpResponse :=
  ⟨200, validateJson (toB64 (validatePlainIndex b))⟩

def validateHandler001 (b : ValidateBody) : HttpResponse :=
  ⟨200, validateJson (toB64 (validatePlain001 b))⟩

/-- index.ts dashboard (lines 62-72): raw text body if nonempty, else the
`data` query parameter; the substituted value is its base64. -/
def dashboardClientDataIndex (rawBody rawQuery : List Char) : List Char :=
  if rawBody.isEmpty then rawQuery else rawBody

def dashboardTokenIndex (rawBody rawQuery : List Char) : List Char :=
  toB64 (dashboardClientDataIndex rawBody rawQuery)

/-- part_001 dashboard body parse (lines 50-61): stringify the parsed body,
split on `"`, split piece 1 on newlines, drop the last piece, keep
`key|value` pieces that split into exactly two parts. -/
def dashClean001 (m : List (List Char × List Char)) : List (List Char × List Char) :=
  match splitCh '"' (jsonStringify m) with
  | _ :: p1 :: _ =>
    ((splitCh '\n' p1).dropLast).foldl
      (fun t line =>
        match splitCh '|' line with
        | [k, v] => jsInsert t k v
        | _ => t) []
  | _ => []

/-- part_001 dashboard (lines 44-71): the value substituted for the
placeholder is base64 of `JSON.stringify(tData)`; `body` is `none` for a
missing/non-object body. -/
def dashboardToken001 (body : Option (List (List Char × List Char))) : List Char :=
  let tData := match body with
    | some m => if m.isEmpty then [] else dashClean001 m
    | none => []
  toB64 (jsonStringify tData)

def placeholder : List Char := toL ("\x7b\x7b data \x7d\x7d")

/-- `templateContent.replace('{{ data }}', value)`. -/
def renderTemplate (template value : List Char) : List Char :=
  replaceFirst placeholder value template

/-! ## Definitions written from the spec's words (for refinement claims) -/

/-- Modelled from the spec: "the value of the first `_token=` field (the
characters after `_token=` up to the next `&` or end of string)". -/
def firstTokenValue (d : List Char) : Option (List Char) :=
  (findSplit tokenPat d).map fun pq => pq.2.takeWhile (· ≠ '&')

/-- Replace, inside the first `&`-separated segment containing `_token=`,
everything after the first `_token=` by `rep`; all other segments stay
untouched. -/
def segReplace (rep : List Char) : List (List Char) → List (List Char)
  | [] => []
  | seg :: rest =>
    match findSplit tokenPat seg with
    | some (a, _) => (a ++ tokenPat ++ rep) :: rest
    | none => seg :: segReplace rep rest

/-- Modelled from the spec's guarantee: split the decoded token on `&` into
`key=value` segments; the value of the first `_token=` field is replaced,
every other segment is byte-identical and keeps its position. -/
def specReplaceSeg (rep d : List Char) : List Char :=
  joinAmp (segReplace rep (splitCh '&' d))

/-- The part_001 sentinel branch is benign exactly when the first occurrence
of `_token=e30=` (if any) starts at the first occurrence of `_token=`. -/
def alignedSentinel (d : List Char) : Bool :=
  match findSplit sentinelPat d, findSplit tokenPat d with
  | some (p, _), some (p2, _) => p == p2
  | some _, none => false
  | none, _ => true

/-! ## Lemmas about `findSplit` (first-occurrence search) -/

theorem isPrefixOf_iff_exists : ∀ (p s : List Char), p.isPrefixOf s = true ↔ ∃ t, s = p ++ t
  | [], s => by simp [List.isPrefixOf]
  | a :: p, [] => by simp [List.isPrefixOf]
  | a :: p, b :: s => by
    simp only [List.isPrefixOf, Bool.and_eq_true, beq_iff_eq, List.cons_append,
      List.cons.injEq]
    rw [isPrefixOf_iff_exists p s]
    constructor
    · rintro ⟨rfl, t, rfl⟩
      exact ⟨t, rfl, rfl⟩
    · rintro ⟨t, rfl, rfl⟩
      exact ⟨rfl, t, rfl⟩

theorem isPrefixOf_append_stable (p A t : List Char) (h : p.length ≤ A.length) :
    p.isPrefixOf (A ++ t) = p.isPrefixOf A := by
  rw [Bool.eq_iff_iff, isPrefixOf_iff_exists, isPrefixOf_iff_exists]
  constructor
  · rintro ⟨u, hu⟩
    have htake : A.take p.length = p := by
      have hc := congrArg (List.take p.length) hu
      rwa [List.take_append_eq_append_take, Nat.sub_eq_zero_of_le h, List.take_zero,
        List.append_nil, List.take_append_eq_append_take, List.take_length,
        Nat.sub_self, List.take_zero, List.append_nil] at hc
    refine ⟨A.drop p.length, ?_⟩
    conv_lhs => rw [← List.take_append_drop p.length A]
    rw [htake]
  · rintro ⟨u, rfl⟩
    exact ⟨u ++ t, by simp⟩

theorem findSplit_sound (pat : List Char) :
    ∀ (s p q : List Char), findSplit pat s = some (p, q) → s = p ++ pat ++ q
  | [], p, q, h => by
    simp only [findSplit] at h
    split at h
    · rename_i hp
      simp only [Option.some.injEq, Prod.mk.injEq] at h
      obtain ⟨rfl, rfl⟩ := h
      simp [List.isEmpty_iff.mp hp]
    · exact absurd h (by simp)
  | c :: s, p, q, h => by
    simp only [findSplit] at h
    split at h
    · rename_i hp
      simp only [Option.some.injEq, Prod.mk.injEq] at h
      obtain ⟨rfl, rfl⟩ := h
      obtain ⟨t, ht⟩ := (isPrefixOf_iff_exists pat (c :: s)).mp hp
      rw [ht, List.drop_left]
      simp
    · cases hm : findSplit pat s with
      | none => rw [hm] at h; simp at h
      | some pq =>
        obtain ⟨p1, q1⟩ := pq
        rw [hm] at h
        simp only [Option.some.injEq, Prod.mk.injEq] at h
        obtain ⟨rfl, rfl⟩ := h
        have hs := findSplit_sound pat s p1 q1 hm
        simp [hs]

theorem findSplit_none (pat : List Char) :
    ∀ (s : List Char), findSplit pat s = none → ∀ (p q : List Char), s ≠ p ++ pat ++ q
  | [], h => by
    intro p q he
    simp only [findSplit] at h
    split at h
    · exact absurd h (by simp)
    · rename_i hp
      have hpat : pat ≠ [] := by
        intro hpe
        rw [hpe] at hp
        simp at hp
      cases pat with
      | nil => exact hpat rfl
      | cons a tl =>
        have hlen := congrArg List.length he
        rw [List.length_append, List.length_append, List.length_cons,
          List.length_nil] at hlen
        omega
  | c :: s, h => by
    simp only [findSplit] at h
    split at h
    · exact absurd h (by simp)
    · rename_i hp
      intro p q he
      match p, he with
      | [], he =>
        have hpre : pat.isPrefixOf (c :: s) = true := by
          rw [isPrefixOf_iff_exists]
          exact ⟨q, by simpa using he⟩
        exact hp hpre
      | c2 :: p1, he =>
        simp only [List.cons_append, List.cons.injEq] at he
        obtain ⟨rfl, he1⟩ := he
        cases hm : findSplit pat s with
        | none => exact findSplit_none pat s hm p1 q he1
        | some pq => rw [hm] at h; simp at h

theorem findSplit_self (pat v : List Char) : findSplit pat (pat ++ v) = some ([], v) := by
  cases pat with
  | nil =>
    cases v with
    | nil => simp [findSplit]
    | cons c t => simp [findSplit, List.isPrefixOf]
  | cons a p =>
    have hp : (a :: p).isPrefixOf ((a :: p) ++ v) = true :=
      (isPrefixOf_iff_exists _ _).mpr ⟨v, rfl⟩
    rw [List.cons_append, findSplit, if_pos (by simpa using hp)]
    simp [List.drop_left (a :: p) v]

theorem findSplit_stable (pat : List Char) :
    ∀ (pre u v : List Char), findSplit pat (pre ++ pat ++ u) = some (pre, u) →
      findSplit pat (pre ++ pat ++ v) = some (pre, v)
  | [], u, v, _ => by simpa using findSplit_self pat v
  | c :: pre, u, v, h => by
    have ea : ∀ (w : List Char), (c :: pre) ++ pat ++ w = c :: (pre ++ pat ++ w) := by
      intro w
      simp
    rw [ea u] at h
    rw [ea v]
    simp only [findSplit] at h ⊢
    have hlen2 : pat.length ≤ (c :: (pre ++ pat)).length := by
      rw [List.length_cons, List.length_append]
      omega
    have eu : c :: (pre ++ pat ++ u) = (c :: (pre ++ pat)) ++ u := by simp
    have ev : c :: (pre ++ pat ++ v) = (c :: (pre ++ pat)) ++ v := by simp
    split at h
    · rename_i hp
      simp at h
    · rename_i hp
      have hp0 : pat.isPrefixOf (c :: (pre ++ pat)) = false := by
        rw [eu, isPrefixOf_append_stable pat _ u hlen2] at hp
        simp only [Bool.not_eq_true] at hp
        exact hp
      have hp2 : ¬ pat.isPrefixOf (c :: (pre ++ pat ++ v)) = true := by
        rw [ev, isPrefixOf_append_stable pat _ v hlen2, hp0]
        simp
      rw [if_neg hp2]
      cases hm : findSplit pat (pre ++ pat ++ u) with
      | none => rw [hm] at h; simp at h
      | some pq =>
        obtain ⟨p1, q1⟩ := pq
        rw [hm] at h
        simp only [Option.some.injEq, Prod.mk.injEq] at h
        obtain ⟨h1, rfl⟩ := h
        have hpre : p1 = pre := by injection h1
        subst hpre
        rw [findSplit_stable pat p1 q1 v hm]

theorem findSplit_extend (pat : List Char) :
    ∀ (s t a b : List Char), findSplit pat s = some (a, b) →
      findSplit pat (s ++ t) = some (a, b ++ t)
  | [], t, a, b, h => by
    simp only [findSplit] at h
    split at h
    · rename_i hp
      simp only [Option.some.injEq, Prod.mk.injEq] at h
      obtain ⟨rfl, rfl⟩ := h
      rw [List.isEmpty_iff.mp hp]
      simpa using findSplit_self [] t
    · exact absurd h (by simp)
  | c :: s, t, a, b, h => by
    have ec : (c :: s) ++ t = c :: (s ++ t) := by simp
    rw [ec]
    simp only [findSplit] at h ⊢
    split at h
    · rename_i hp
      simp only [Option.some.injEq, Prod.mk.injEq] at h
      obtain ⟨rfl, rfl⟩ := h
      obtain ⟨u, hu⟩ := (isPrefixOf_iff_exists pat (c :: s)).mp hp
      have hp2 : pat.isPrefixOf (c :: (s ++ t)) = true := by
        rw [isPrefixOf_iff_exists]
        refine ⟨u ++ t, ?_⟩
        rw [show c :: (s ++ t) = (c :: s) ++ t from rfl, hu]
        simp
      rw [if_pos hp2]
      have hlen : pat.length ≤ (c :: s).length := by
        rw [hu, List.length_append]
        omega
      have hdrop : (c :: (s ++ t)).drop pat.length = (c :: s).drop pat.length ++ t := by
        rw [show c :: (s ++ t) = (c :: s) ++ t from rfl, List.drop_append_eq_append_drop,
          Nat.sub_eq_zero_of_le hlen, List.drop_zero]
      rw [hdrop]
    · rename_i hp
      cases hm : findSplit pat s with
      | none => rw [hm] at h; simp at h
      | some pq =>
        obtain ⟨p1, q1⟩ := pq
        rw [hm] at h
        simp only [Option.some.injEq, Prod.mk.injEq] at h
        obtain ⟨rfl, rfl⟩ := h
        have hlen : pat.length ≤ s.length := by
          have hs := findSplit_sound pat s p1 q1 hm
          rw [hs, List.length_append, List.length_append]
          omega
        have hp2 : ¬ pat.isPrefixOf (c :: (s ++ t)) = true := by
          rw [show c :: (s ++ t) = (c :: s) ++ t from rfl,
            isPrefixOf_append_stable pat (c :: s) t (by rw [List.length_cons]; omega)]
          exact hp
        rw [if_neg hp2, findSplit_extend pat s t p1 q1 hm]

/-! ## Lemmas about splitting on `&` and the base64 alphabet -/

theorem splitCh_ne_nil (sep : Char) : ∀ (d : List Char), splitCh sep d ≠ []
  | [] => by simp [splitCh]
  | c :: rest => by
    simp only [splitCh]
    split
    · simp
    · cases hm : splitCh sep rest with
      | nil => simp
      | cons s ss => simp

theorem splitCh_no_sep (sep : Char) :
    ∀ (d : List Char), sep ∉ d → splitCh sep d = [d]
  | [], _ => by simp [splitCh]
  | c :: rest, h => by
    have hc : ¬ c = sep := by
      intro hce
      exact h (hce ▸ List.mem_cons_self c rest)
    have hr : sep ∉ rest := fun hm => h (List.mem_cons_of_mem c hm)
    simp only [splitCh, if_neg hc, splitCh_no_sep sep rest hr]

theorem splitCh_sep_append (sep : Char) :
    ∀ (seg d : List Char), sep ∉ seg →
      splitCh sep (seg ++ sep :: d) = seg :: splitCh sep d
  | [], d, _ => by simp [splitCh]
  | c :: seg1, d, h => by
    have hc : ¬ c = sep := by
      intro hce
      exact h (hce ▸ List.mem_cons_self c seg1)
    have hr : sep ∉ seg1 := fun hm => h (List.mem_cons_of_mem c hm)
    rw [List.cons_append]
    simp only [splitCh, if_neg hc, splitCh_sep_append sep seg1 d hr]

theorem joinAmp_splitCh : ∀ (d : List Char), joinAmp (splitCh '&' d) = d
  | [] => by simp [splitCh, joinAmp]
  | c :: rest => by
    have ih := joinAmp_splitCh rest
    simp only [splitCh]
    split
    · rename_i hc
      cases hm : splitCh '&' rest with
      | nil => exact absurd hm (splitCh_ne_nil '&' rest)
      | cons s ss =>
        rw [hm] at ih
        subst hc
        simp only [joinAmp, List.nil_append]
        rw [ih]
    · cases hm : splitCh '&' rest with
      | nil => exact absurd hm (splitCh_ne_nil '&' rest)
      | cons s ss =>
        rw [hm] at ih
        cases ss with
        | nil => simp only [joinAmp] at ih ⊢; rw [ih]
        | cons s2 ss2 => simp only [joinAmp, List.cons_append] at ih ⊢; rw [ih]

theorem joinAmp_cons (s : List Char) (X : List (List Char)) (h : X ≠ []) :
    joinAmp (s :: X) = s ++ '&' :: joinAmp X := by
  cases X with
  | nil => exact absurd rfl h
  | cons x xs => rfl

theorem segReplace_ne_nil (rep : List Char) (S : List (List Char)) (h : S ≠ []) :
    segReplace rep S ≠ [] := by
  cases S with
  | nil => exact absurd rfl h
  | cons seg rest =>
    simp only [segReplace]
    cases hm : findSplit tokenPat seg with
    | none => simp
    | some pq => simp

theorem dropWhile_head_false (p : Char → Bool) :
    ∀ (l : List Char) (c : Char) (t : List Char), l.dropWhile p = c :: t → p c = false
  | [], c, t, h => by simp [List.dropWhile] at h
  | a :: l, c, t, h => by
    rw [List.dropWhile] at h
    split at h
    · exact dropWhile_head_false p l c t h
    · rename_i ha
      injection h with h1 h2
      subst h1
      simpa using ha

theorem dropWhile_append_all (p : Char → Bool) (l t : List Char)
    (h : ∀ x ∈ l, p x = true) : (l ++ t).dropWhile p = t.dropWhile p := by
  rw [List.dropWhile_append]
  rw [show l.dropWhile p = [] from List.dropWhile_eq_nil_iff.mpr h]
  simp

theorem dropWhile_amp_cons (d : List Char) :
    List.dropWhile (· ≠ '&') ('&' :: d) = '&' :: d := by
  simp [List.dropWhile]

theorem b64digit_mem (n : Nat) : b64digit n ∈ base64Alphabet := by
  unfold b64digit List.getD
  cases h : base64Alphabet.get? n with
  | none => simp [Option.getD]; decide
  | some c =>
    have := List.get?_mem h
    simpa [Option.getD] using this

theorem b64digit_ne_amp (n : Nat) : b64digit n ≠ '&' := by
  have h := b64digit_mem n
  intro he
  rw [he] at h
  have : '&' ∉ base64Alphabet := by decide
  exact this h

theorem base64Encode_no_amp : ∀ (bs : List Nat), ∀ c ∈ base64Encode bs, c ≠ '&'
  | [] => by simp [base64Encode]
  | [a] => by
    intro c hc
    simp only [base64Encode, List.mem_cons, List.not_mem_nil, or_false] at hc
    rcases hc with rfl | rfl | rfl | rfl
    · exact b64digit_ne_amp _
    · exact b64digit_ne_amp _
    · decide
    · decide
  | [a, b] => by
    intro c hc
    simp only [base64Encode, List.mem_cons, List.not_mem_nil, or_false] at hc
    rcases hc with rfl | rfl | rfl | rfl
    · exact b64digit_ne_amp _
    · exact b64digit_ne_amp _
    · exact b64digit_ne_amp _
    · decide
  | a :: b :: c0 :: rest => by
    intro c hc
    simp only [base64Encode, List.mem_cons] at hc
    rcases hc with rfl | rfl | rfl | rfl | hm
    · exact b64digit_ne_amp _
    · exact b64digit_ne_amp _
    · exact b64digit_ne_amp _
    · exact b64digit_ne_amp _
    · exact base64Encode_no_amp rest c hm

theorem toB64_no_amp (s : List Char) : ∀ c ∈ toB64 s, c ≠ '&' :=
  base64Encode_no_amp (utf8Encode s)

/-! ## The regex substitution refines the segment-wise specification -/

theorem findSplit_skip_sep (pat : List Char) (hpat : pat ≠ []) (hamp : '&' ∉ pat) :
    ∀ (seg d : List Char), findSplit pat seg = none →
      findSplit pat (seg ++ '&' :: d) =
        (findSplit pat d).map (fun pq => (seg ++ '&' :: pq.1, pq.2))
  | [], d, _ => by
    cases pat with
    | nil => exact absurd rfl hpat
    | cons p0 pat1 =>
      have hp0 : p0 ≠ '&' := by
        intro he
        exact hamp (he ▸ List.mem_cons_self p0 pat1)
      have hpre : ¬ (p0 :: pat1).isPrefixOf ('&' :: d) = true := by
        simp only [List.isPrefixOf, Bool.and_eq_true, beq_iff_eq]
        rintro ⟨he, -⟩
        exact hp0 he
      rw [List.nil_append]
      simp only [findSplit, if_neg hpre]
      cases hm : findSplit (p0 :: pat1) d with
      | none => simp
      | some pq => simp
  | c :: seg1, d, h => by
    simp only [findSplit] at h
    split at h
    · exact absurd h (by simp)
    · rename_i hp
      have hinner : findSplit pat seg1 = none := by
        cases hm : findSplit pat seg1 with
        | none => rfl
        | some pq => rw [hm] at h; simp at h
      have ec : (c :: seg1) ++ '&' :: d = c :: (seg1 ++ '&' :: d) := by simp
      rw [ec]
      have hp2 : ¬ pat.isPrefixOf (c :: (seg1 ++ '&' :: d)) = true := by
        intro hpre
        obtain ⟨u, hu⟩ := (isPrefixOf_iff_exists _ _).mp hpre
        by_cases hl : pat.length ≤ seg1.length + 1
        · have hst : pat.isPrefixOf ((c :: seg1) ++ '&' :: d) = pat.isPrefixOf (c :: seg1) :=
            isPrefixOf_append_stable pat (c :: seg1) ('&' :: d)
              (by rw [List.length_cons]; omega)
          have hptrue : pat.isPrefixOf (c :: seg1) = true := by
            rw [← hst, isPrefixOf_iff_exists]
            exact ⟨u, by rw [← hu]; simp⟩
          exact hp hptrue
        · push_neg at hl
          apply hamp
          have htake := congrArg (List.take pat.length) hu
          rw [List.take_left] at htake
          rw [← htake,
            show c :: (seg1 ++ '&' :: d) = (c :: seg1) ++ '&' :: d from by simp,
            List.take_append_eq_append_take]
          refine List.mem_append.mpr (Or.inr ?_)
          rw [List.length_cons,
            show pat.length - (seg1.length + 1) = (pat.length - seg1.length - 2) + 1 from by omega,
            List.take_succ_cons]
          exact List.mem_cons_self _ _
      simp only [findSplit, if_neg hp2]
      rw [findSplit_skip_sep pat hpat hamp seg1 d hinner]
      cases hm : findSplit pat d with
      | none => simp
      | some pq => simp

theorem replaceTokenField_eq_specAux (rep : List Char) :
    ∀ (n : Nat) (d : List Char), d.length ≤ n → replaceTokenField rep d = specReplaceSeg rep d := by
  intro n
  induction n with
  | zero =>
    intro d hd
    have hde : d = [] := List.length_eq_zero.mp (Nat.le_zero.mp hd)
    subst hde
    have ht : findSplit tokenPat [] = none := by decide
    simp [replaceTokenField, specReplaceSeg, splitCh, segReplace, joinAmp, ht]
  | succ n ih =>
    intro d hd
    cases hdw : d.dropWhile (· ≠ '&') with
    | nil =>
      have hall : ∀ x ∈ d, x ≠ '&' := by
        have hh := List.dropWhile_eq_nil_iff.mp hdw
        intro x hx
        simpa using hh x hx
      have hnot : '&' ∉ d := fun hm => hall '&' hm rfl
      have hsp : splitCh '&' d = [d] := splitCh_no_sep '&' d hnot
      unfold specReplaceSeg
      rw [hsp]
      cases hfs : findSplit tokenPat d with
      | none => simp [replaceTokenField, segReplace, hfs, joinAmp]
      | some pq =>
        obtain ⟨a, b⟩ := pq
        have hbnil : b.dropWhile (· ≠ '&') = [] := by
          rw [List.dropWhile_eq_nil_iff]
          intro x hx
          have hxd : x ∈ d := by
            rw [findSplit_sound tokenPat d a b hfs]
            simp [hx]
          simpa using hall x hxd
        simp [replaceTokenField, segReplace, hfs, joinAmp, hbnil]
        intro x hx
        have hxd : x ∈ d := by
          rw [findSplit_sound tokenPat d a b hfs]
          simp [hx]
        exact hall x hxd
    | cons c d' =>
      have hc : c = '&' := by
        have hh := dropWhile_head_false (· ≠ '&') d c d' hdw
        simpa using hh
      subst hc
      have hseg : d = d.takeWhile (· ≠ '&') ++ '&' :: d' := by
        conv_lhs => rw [← List.takeWhile_append_dropWhile (p := (· ≠ '&')) (l := d)]
        rw [hdw]
      have hsegamp : '&' ∉ d.takeWhile (· ≠ '&') := by
        intro hm
        have hh := List.mem_takeWhile_imp hm
        simp at hh
      have hlend' : d'.length ≤ n := by
        have hh := congrArg List.length hseg
        rw [List.length_append, List.length_cons] at hh
        omega
      have hsp : splitCh '&' d = d.takeWhile (· ≠ '&') :: splitCh '&' d' := by
        conv_lhs => rw [hseg]
        exact splitCh_sep_append '&' _ d' hsegamp
      cases hfseg : findSplit tokenPat (d.takeWhile (· ≠ '&')) with
      | some pq =>
        obtain ⟨a, b⟩ := pq
        have hfd : findSplit tokenPat d = some (a, b ++ '&' :: d') := by
          conv_lhs => rw [hseg]
          exact findSplit_extend tokenPat _ ('&' :: d') a b hfseg
        have hbamp : ∀ x ∈ b, x ≠ '&' := by
          intro x hx he
          subst he
          apply hsegamp
          rw [findSplit_sound tokenPat _ a b hfseg]
          simp [hx]
        have hLHS : replaceTokenField rep d = a ++ tokenPat ++ rep ++ ('&' :: d') := by
          simp only [replaceTokenField, hfd]
          rw [dropWhile_append_all _ b ('&' :: d') (by intro x hx; simpa using hbamp x hx),
            dropWhile_amp_cons]
        have hRHS : specReplaceSeg rep d = (a ++ tokenPat ++ rep) ++ '&' :: d' := by
          unfold specReplaceSeg
          rw [hsp]
          simp only [segReplace, hfseg]
          rw [joinAmp_cons _ _ (splitCh_ne_nil '&' d'), joinAmp_splitCh d']
        rw [hLHS, hRHS]
      | none =>
        have hfd : findSplit tokenPat d =
            (findSplit tokenPat d').map
              (fun pq => (d.takeWhile (· ≠ '&') ++ '&' :: pq.1, pq.2)) := by
          conv_lhs => rw [hseg]
          exact findSplit_skip_sep tokenPat (by decide) (by decide) _ d' hfseg
        have hih : replaceTokenField rep d' = specReplaceSeg rep d' := ih d' hlend'
        have hRHS : specReplaceSeg rep d =
            d.takeWhile (· ≠ '&') ++ '&' :: replaceTokenField rep d' := by
          unfold specReplaceSeg
          rw [hsp]
          simp only [segReplace, hfseg]
          rw [joinAmp_cons _ _ (segReplace_ne_nil rep _ (splitCh_ne_nil '&' d'))]
          have hj : joinAmp (segReplace rep (splitCh '&' d')) = replaceTokenField rep d' := by
            rw [hih, specReplaceSeg]
          rw [hj]
        cases hfd' : findSplit tokenPat d' with
        | none =>
          have hL : replaceTokenField rep d = d := by
            rw [hfd'] at hfd
            simp only [replaceTokenField, hfd, Option.map_none']
          have hR : replaceTokenField rep d' = d' := by
            simp only [replaceTokenField, hfd']
          rw [hL, hRHS, hR, ← hseg]
        | some pq =>
          obtain ⟨p, q⟩ := pq
          have hL : replaceTokenField rep d =
              (d.takeWhile (· ≠ '&') ++ '&' :: p) ++ tokenPat ++ rep ++
                q.dropWhile (· ≠ '&') := by
            rw [hfd'] at hfd
            simp only [replaceTokenField, hfd, Option.map_some']
          have hR : replaceTokenField rep d' =
              p ++ tokenPat ++ rep ++ q.dropWhile (· ≠ '&') := by
            simp only [replaceTokenField, hfd']
          rw [hL, hRHS, hR]
          simp [List.append_assoc]

theorem replaceTokenField_eq_spec (rep d : List Char) :
    replaceTokenField rep d = specReplaceSeg rep d :=
  replaceTokenField_eq_specAux rep d.length d (Nat.le_refl _)

/-! ## The sentinel branch of part_001 -/

theorem sentinelPat_eq : sentinelPat = tokenPat ++ e30L := by decide

theorem containsL_iff_exists (pat s : List Char) :
    containsL pat s = true ↔ ∃ p q, s = p ++ pat ++ q := by
  unfold containsL
  cases h : findSplit pat s with
  | none =>
    constructor
    · simp
    · rintro ⟨p, q, rfl⟩
      exact absurd rfl (findSplit_none pat _ h p q)
  | some pq =>
    obtain ⟨p, q⟩ := pq
    simp only [Option.isSome_some, true_iff]
    exact ⟨p, q, findSplit_sound pat s p q h⟩

theorem sentinel_needs_token (d : List Char) (h : findSplit tokenPat d = none) :
    findSplit sentinelPat d = none := by
  cases hs : findSplit sentinelPat d with
  | none => rfl
  | some pq =>
    obtain ⟨p, q⟩ := pq
    have hd := findSplit_sound sentinelPat d p q hs
    rw [sentinelPat_eq] at hd
    exact absurd (by rw [hd]; simp [List.append_assoc])
      (findSplit_none tokenPat d h p (e30L ++ q))

/-- When the first occurrence of `_token=e30=` (if any) starts at the first
occurrence of `_token=`, the part_001 sentinel branch is erased by the final
substitution: the whole operation collapses to the one regex replace. -/
theorem plain001_aligned (d cd : List Char) (hA : alignedSentinel d = true) :
    checkTokenPlain001 d cd = replaceTokenField (toB64 cd) d := by
  cases h1 : findSplit sentinelPat d with
  | none =>
    unfold checkTokenPlain001 sentinelStep containsL
    rw [h1]
    simp
  | some pq =>
    obtain ⟨pre, post⟩ := pq
    have h2 : findSplit tokenPat d = some (pre, e30L ++ post) := by
      unfold alignedSentinel at hA
      rw [h1] at hA
      cases h2' : findSplit tokenPat d with
      | none => rw [h2'] at hA; simp at hA
      | some pq2 =>
        obtain ⟨p2, q2⟩ := pq2
        rw [h2'] at hA
        simp only [beq_iff_eq] at hA
        subst hA
        have hs1 : d = pre ++ sentinelPat ++ post := findSplit_sound sentinelPat d pre post h1
        have hs2 : d = pre ++ tokenPat ++ q2 := findSplit_sound tokenPat d pre q2 h2'
        have he : (pre ++ tokenPat) ++ (e30L ++ post) = (pre ++ tokenPat) ++ q2 := by
          rw [show (pre ++ tokenPat) ++ q2 = pre ++ tokenPat ++ q2 from rfl, ← hs2,
            hs1, sentinelPat_eq]
          simp [List.append_assoc]
        have hq : q2 = e30L ++ post := (List.append_cancel_left he).symm
        rw [hq]
    have hs1 : d = pre ++ sentinelPat ++ post := findSplit_sound sentinelPat d pre post h1
    have hd2 : pre ++ tokenPat ++ (e30L ++ post) = d := by
      rw [hs1, sentinelPat_eq]
      simp [List.append_assoc]
    have hstab : findSplit tokenPat
        (pre ++ tokenPat ++ (toB64 (jsonStringify (legacyParse cd)) ++ post)) =
        some (pre, toB64 (jsonStringify (legacyParse cd)) ++ post) := by
      apply findSplit_stable tokenPat pre (e30L ++ post)
      rw [hd2]
      exact h2
    have hstep : sentinelStep d cd =
        pre ++ (tokenPat ++ toB64 (jsonStringify (legacyParse cd))) ++ post := by
      unfold sentinelStep containsL replaceFirst
      rw [h1]
      rfl
    have e1 : pre ++ (tokenPat ++ toB64 (jsonStringify (legacyParse cd))) ++ post =
        pre ++ tokenPat ++ (toB64 (jsonStringify (legacyParse cd)) ++ post) := by
      simp [List.append_assoc]
    have hL : replaceTokenField (toB64 cd)
        (pre ++ tokenPat ++ (toB64 (jsonStringify (legacyParse cd)) ++ post)) =
        pre ++ tokenPat ++ toB64 cd ++
          (toB64 (jsonStringify (legacyParse cd)) ++ post).dropWhile (· ≠ '&') := by
      unfold replaceTokenField
      rw [hstab]
    have hR : replaceTokenField (toB64 cd) d =
        pre ++ tokenPat ++ toB64 cd ++ (e30L ++ post).dropWhile (· ≠ '&') := by
      unfold replaceTokenField
      rw [h2]
    unfold checkTokenPlain001
    rw [hstep, e1, hL, hR,
      dropWhile_append_all _ _ post
        (by intro x hx; simpa using toB64_no_amp (jsonStringify (legacyParse cd)) x hx),
      dropWhile_append_all _ e30L post (by decide)]

theorem findSplit_pipe : ∀ (k rest : List Char), '|' ∉ k →
    findSplit ['|'] (k ++ '|' :: rest) = some (k, rest)
  | [], rest, _ => by simpa using findSplit_self ['|'] rest
  | c :: k1, rest, h => by
    have hc : c ≠ '|' := fun he => h (by simp [he])
    have hpre : ¬ (['|'] : List Char).isPrefixOf (c :: (k1 ++ '|' :: rest)) = true := by
      simp only [List.isPrefixOf, Bool.and_eq_true, beq_iff_eq]
      rintro ⟨he, -⟩
      exact hc he.symm
    rw [List.cons_append]
    simp only [findSplit, if_neg hpre]
    rw [findSplit_pipe k1 rest (fun hm => h (List.mem_cons_of_mem c hm))]

/-! ## The claims -/

/-- Claim C1 (amended): for a token decoding to `d` and nonempty clientData
`C`, the decoded refresh result is `d` with only the first `_token=` field
value replaced by base64(C), every other `&`-segment byte-identical and in
order — unconditionally for the index.ts handler, and for the part_001
handler under the hypothesis that the first occurrence of `_token=e30=`
in `d` (if any) starts at the first occurrence of `_token=`. -/
theorem checktoken_replaces_only_token_field (d C : List Char) (hC : C ≠ []) :
    checkTokenPlainIndex d C = specReplaceSeg (toB64 C) d ∧
    (alignedSentinel d = true →
      checkTokenPlain001 d C = specReplaceSeg (toB64 C) d) := by
  refine ⟨replaceTokenField_eq_spec (toB64 C) d, fun hA => ?_⟩
  rw [show checkTokenPlain001 d C = replaceTokenField (toB64 C) d from
    plain001_aligned d C hA]
  exact replaceTokenField_eq_spec (toB64 C) d

/-- Witness for C1 at a concrete sentinel-bearing decoded token. -/
theorem checktoken_replaces_only_token_field_witness :
    checkTokenPlain001 (toL ("_token=e30=&growId=x&reg=0")) (toL ("hi")) =
      specReplaceSeg (toB64 (toL ("hi"))) (toL ("_token=e30=&growId=x&reg=0")) :=
  (checktoken_replaces_only_token_field (toL ("_token=e30=&growId=x&reg=0")) (toL ("hi"))
    (by decide)).2 (by decide)

/-- Claim C1 as stated is false on part_001: a sentinel occurrence inside a
later segment is rewritten by the migration branch, so that segment is not
byte-identical in the output. -/
theorem checktoken_c1_counterexample :
    checkTokenPlain001 (toL ("_token=a&x=_token=e30=")) (toL ("a|1")) ≠
      specReplaceSeg (toB64 (toL ("a|1"))) (toL ("_token=a&x=_token=e30=")) := by
  decide

/-- Claim C2 (amended): the part_001 migration branch fires iff the decoded
token contains `_token=e30=` as a substring anywhere, not only when the
first `_token` field value is exactly `e30=`. -/
theorem sentinel_branch_substring_iff (d : List Char) :
    containsL sentinelPat d = true ↔ ∃ p q, d = p ++ sentinelPat ++ q :=
  containsL_iff_exists sentinelPat d

/-- Claim C2 as stated is false: for `_token=e30=x` the branch condition
holds although the `_token` value is not exactly the sentinel. -/
theorem sentinel_branch_exact_value_counterexample :
    ¬ (containsL sentinelPat (toL ("_token=e30=x&growId=g")) = true ↔
        firstTokenValue (toL ("_token=e30=x&growId=g")) = some e30L) := by
  decide

/-- Claim C3 (amended): the index.ts validate handler serializes any absent
credential field (`_token`, growId or password) as `key=` with an empty
value; the part_000 and part_001 handlers instead interpolate the literal
text `undefined` for each absent field. -/
theorem validate_missing_field_serialization :
    (∀ g p, validatePlainIndex ⟨none, some g, some p, none⟩ =
      toL ("_token=&growId=") ++ g ++ toL ("&password=") ++ p ++ toL ("&reg=0")) ∧
    (∀ t p, validatePlainIndex ⟨some t, none, some p, none⟩ =
      toL ("_token=") ++ t ++ toL ("&growId=&password=") ++ p ++ toL ("&reg=0")) ∧
    (∀ t g, validatePlainIndex ⟨some t, some g, none, none⟩ =
      toL ("_token=") ++ t ++ toL ("&growId=") ++ g ++ toL ("&password=&reg=0")) ∧
    (∀ g p, validatePlain001 ⟨none, some g, some p, none⟩ =
      toL ("_token=undefined&growId=") ++ g ++ toL ("&password=") ++ p ++ toL ("&reg=0")) ∧
    (∀ t p, validatePlain001 ⟨some t, none, some p, none⟩ =
      toL ("_token=") ++ t ++ toL ("&growId=undefined&password=") ++ p ++ toL ("&reg=0")) ∧
    (∀ t g, validatePlain001 ⟨some t, some g, none, none⟩ =
      toL ("_token=") ++ t ++ toL ("&growId=") ++ g ++ toL ("&password=undefined&reg=0")) ∧
    (∀ g p, validatePlain000 ⟨none, some g, some p, none⟩ =
      toL ("_token=undefined&growId=") ++ g ++ toL ("&password=") ++ p ++
        toL ("&serverName=&reg=0")) ∧
    (∀ t p, validatePlain000 ⟨some t, none, some p, none⟩ =
      toL ("_token=") ++ t ++ toL ("&growId=undefined&password=") ++ p ++
        toL ("&serverName=&reg=0")) ∧
    (∀ t g, validatePlain000 ⟨some t, some g, none, none⟩ =
      toL ("_token=") ++ t ++ toL ("&growId=") ++ g ++
        toL ("&password=undefined&serverName=&reg=0")) := by
  refine ⟨fun g p => ?_, fun t p => ?_, fun t g => ?_, fun g p => ?_, fun t p => ?_,
    fun t g => ?_, fun g p => ?_, fun t p => ?_, fun t g => ?_⟩
  · rfl
  · rw [show toL ("&growId=&password=") = toL ("&growId=") ++ toL ("&password=") from by
      decide]
    simp [validatePlainIndex, List.append_assoc]
  · rw [show toL ("&password=&reg=0") = toL ("&password=") ++ toL ("&reg=0") from by decide]
    simp [validatePlainIndex, List.append_assoc]
  · rfl
  · rw [show toL ("&growId=undefined&password=") =
      toL ("&growId=") ++ toL ("undefined") ++ toL ("&password=") from by decide]
    simp [validatePlain001, jsShow, List.append_assoc]
  · rw [show toL ("&password=undefined&reg=0") =
      toL ("&password=") ++ toL ("undefined") ++ toL ("&reg=0") from by decide]
    simp [validatePlain001, jsShow, List.append_assoc]
  · rw [show toL ("&serverName=&reg=0") = toL ("&serverName=") ++ toL ("&reg=0") from by
      decide,
      show toL ("_token=undefined&growId=") =
        toL ("_token=") ++ toL ("undefined") ++ toL ("&growId=") from by decide]
    simp [validatePlain000, jsShow, List.append_assoc]
  · rw [show toL ("&growId=undefined&password=") =
      toL ("&growId=") ++ toL ("undefined") ++ toL ("&password=") from by decide,
      show toL ("&serverName=&reg=0") = toL ("&serverName=") ++ toL ("&reg=0") from by
        decide]
    simp [validatePlain000, jsShow, List.append_assoc]
  · rw [show toL ("&password=undefined&serverName=&reg=0") =
      toL ("&password=") ++ toL ("undefined") ++ toL ("&serverName=") ++ toL ("&reg=0")
      from by decide]
    simp [validatePlain000, jsShow, List.append_assoc]

/-- Claim C3 as stated is false on part_001: an absent `_token` is
interpolated as the text `undefined`, not as an empty value. -/
theorem validate_missing_token_undefined :
    validatePlain001 ⟨none, some (toL ("g")), some (toL ("p")), none⟩ =
      toL ("_token=undefined&growId=g&password=p&reg=0") ∧
    validatePlain001 ⟨none, some (toL ("g")), some (toL ("p")), none⟩ ≠
      toL ("_token=&growId=g&password=p&reg=0") := by
  exact ⟨by decide, by decide⟩

/-- Claim C4 (amended): the index.ts dashboard substitutes base64 of the
raw client data — the empty string when there is none; the part_001
dashboard always substitutes base64 of a JSON object, which is `e30=`
when no data is present. -/
theorem dashboard_empty_data_rendering :
    dashboardTokenIndex [] [] = [] ∧
    (∀ q, dashboardTokenIndex [] q = toB64 q) ∧
    dashboardToken001 none = toL ("e30=") ∧
    dashboardToken001 (some []) = toL ("e30=") ∧
    (∀ template, renderTemplate template (dashboardTokenIndex [] []) =
      replaceFirst placeholder [] template) := by
  refine ⟨rfl, fun q => rfl, by decide, by decide, fun template => rfl⟩

/-- Claim C4 as stated is false on part_001: with no client data the
substituted value is `e30=` (base64 of the empty JSON object), not the
empty string. -/
theorem dashboard001_fabricates_sentinel :
    dashboardToken001 none = toL ("e30=") ∧ dashboardToken001 none ≠ [] := by
  exact ⟨by decide, by decide⟩

/-- Claim C5: on the documented example the sentinel migration first
rewrites the `_token` value to base64 of the JSON text, and the final
unconditional substitution then overwrites it with base64 of clientData. -/
theorem sentinel_migration_then_overwrite :
    sentinelStep (toL ("_token=e30=&growId=x&password=y&reg=0")) (toL ("a|1\nb|2")) =
      toL ("_token=") ++ toB64 (toL ("\x7b\"a\":\"1\",\"b\":\"2\"\x7d")) ++
        toL ("&growId=x&password=y&reg=0") ∧
    checkTokenPlain001 (toL ("_token=e30=&growId=x&password=y&reg=0")) (toL ("a|1\nb|2")) =
      toL ("_token=") ++ toB64 (toL ("a|1\nb|2")) ++ toL ("&growId=x&password=y&reg=0") := by
  exact ⟨by decide, by decide⟩

/-- Claim C6: when the extracted refreshToken or clientData is absent or
empty (whether supplied nested under data or at top level), both
checktoken handlers answer 400 with the missing-field JSON body and no
token. -/
theorem checktoken_missing_inputs_400 (b : CheckBody) :
    ((jsFalsy (rt001 b) || jsFalsy (cd001 b)) = true →
      checkTokenHandler001 b = ⟨400, missingJson⟩) ∧
    ((jsFalsy (rtIndex b) || jsFalsy (cdIndex b)) = true →
      checkTokenHandlerIndex b = ⟨400, missingJson⟩) := by
  constructor
  · intro h
    unfold checkTokenHandler001
    rw [if_pos h]
  · intro h
    unfold checkTokenHandlerIndex
    rw [if_pos h]

/-- Witness for C6: an empty top-level refreshToken yields the 400 body. -/
theorem checktoken_missing_inputs_400_witness :
    checkTokenHandler001 ⟨none, some [], some (toL ("x"))⟩ = ⟨400, missingJson⟩ ∧
    checkTokenHandlerIndex ⟨none, some [], some (toL ("x"))⟩ = ⟨400, missingJson⟩ :=
  ⟨(checktoken_missing_inputs_400 ⟨none, some [], some (toL ("x"))⟩).1 (by decide),
   (checktoken_missing_inputs_400 ⟨none, some [], some (toL ("x"))⟩).2 (by decide)⟩

/-- Claim C7 (amended): a decoded token without `_token=` passes through
both handlers unchanged and both handlers still answer success; when
`_token=` occurs, only the first occurrence's value span is replaced — for
the part_001 handler provided the sentinel substring, if present, starts
at the first `_token=` (otherwise the migration branch also rewrites a
later occurrence). -/
theorem checktoken_no_or_multiple_token_fields (d C : List Char) :
    (findSplit tokenPat d = none →
      checkTokenPlainIndex d C = d ∧ checkTokenPlain001 d C = d) ∧
    (∀ pre post, findSplit tokenPat d = some (pre, post) →
      checkTokenPlainIndex d C = pre ++ tokenPat ++ toB64 C ++ post.dropWhile (· ≠ '&') ∧
      (alignedSentinel d = true →
        checkTokenPlain001 d C = pre ++ tokenPat ++ toB64 C ++ post.dropWhile (· ≠ '&'))) ∧
    (∀ rt cd, rt ≠ [] → cd ≠ [] →
      (checkTokenHandler001 ⟨none, some rt, some cd⟩).status = 200 ∧
      (checkTokenHandlerIndex ⟨none, some rt, some cd⟩).status = 200) := by
  refine ⟨?_, ?_, ?_⟩
  · intro hnone
    have hs := sentinel_needs_token d hnone
    constructor
    · simp [checkTokenPlainIndex, replaceTokenField, hnone]
    · simp [checkTokenPlain001, sentinelStep, containsL, replaceTokenField, hs, hnone]
  · intro pre post hsome
    constructor
    · simp [checkTokenPlainIndex, replaceTokenField, hsome]
    · intro hA
      rw [plain001_aligned d C hA]
      simp [replaceTokenField, hsome]
  · intro rt cd hrt hcd
    constructor
    · simp [checkTokenHandler001, rt001, cd001, jsFalsy,
        List.isEmpty_eq_false.mpr hrt, List.isEmpty_eq_false.mpr hcd]
    · simp [checkTokenHandlerIndex, rtIndex, cdIndex, jsFalsy,
        List.isEmpty_eq_false.mpr hrt, List.isEmpty_eq_false.mpr hcd]

set_option maxRecDepth 8192 in
/-- Witness for C7: a token without `_token=` is unchanged, and with two
occurrences only the first value span is replaced. -/
theorem checktoken_no_or_multiple_token_fields_witness :
    checkTokenPlain001 (toL ("growId=g")) (toL ("x")) = toL ("growId=g") ∧
    checkTokenPlain001 (toL ("_token=a&_token=b")) (toL ("x")) =
      toL ("") ++ tokenPat ++ toB64 (toL ("x")) ++
        (toL ("a&_token=b")).dropWhile (· ≠ '&') :=
  ⟨((checktoken_no_or_multiple_token_fields (toL ("growId=g")) (toL ("x"))).1
      (by decide)).2,
   (((checktoken_no_or_multiple_token_fields (toL ("_token=a&_token=b")) (toL ("x"))).2.1
      (toL ("")) (toL ("a&_token=b")) (by decide)).2 (by decide))⟩

/-- Claim C7 as stated is false on part_001: with a second `_token` field
whose value is the sentinel, the migration branch rewrites that second
occurrence as well. -/
theorem checktoken_second_token_occurrence_changed :
    checkTokenPlain001 (toL ("_token=a&_token=e30=")) (toL ("a|1")) ≠
      toL ("_token=") ++ toB64 (toL ("a|1")) ++ toL ("&_token=e30=") := by
  decide

set_option maxRecDepth 65536 in
/-- Claim C8: the documented validate example yields exactly
base64 of "_token=abc&growId=Hello&password=secret&reg=0", and both
validate handlers answer success for every body, with no credential
validation. -/
theorem validate_example_always_success :
    validateHandlerIndex ⟨some (toL ("abc")), some (toL ("Hello")), some (toL ("secret")),
        none⟩ =
      ⟨200, validateJson (toB64 (toL ("_token=abc&growId=Hello&password=secret&reg=0")))⟩ ∧
    validateHandler001 ⟨some (toL ("abc")), some (toL ("Hello")), some (toL ("secret")),
        none⟩ =
      ⟨200, validateJson (toB64 (toL ("_token=abc&growId=Hello&password=secret&reg=0")))⟩ ∧
    (∀ b, ∃ t, validateHandlerIndex b = ⟨200, validateJson t⟩) ∧
    (∀ b, ∃ t, validateHandler001 b = ⟨200, validateJson t⟩) := by
  refine ⟨by decide, by decide, fun b => ⟨_, rfl⟩, fun b => ⟨_, rfl⟩⟩

/-- Claim C9: with nonempty refreshToken and clientData, supplied either at
top level or nested under data, both checktoken handlers produce a 200
success response carrying a token; decoding is total, so the error branch
is unreachable. -/
theorem checktoken_nonempty_inputs_success (rt cd : List Char)
    (h1 : rt ≠ []) (h2 : cd ≠ []) :
    (∃ t, checkTokenHandler001 ⟨none, some rt, some cd⟩ = ⟨200, successJson001 t⟩) ∧
    (∃ t, checkTokenHandler001 ⟨some ⟨some rt, some cd⟩, none, none⟩ =
      ⟨200, successJson001 t⟩) ∧
    (∃ t, checkTokenHandlerIndex ⟨none, some rt, some cd⟩ = ⟨200, successJsonIndex t⟩) ∧
    (∃ t, checkTokenHandlerIndex ⟨some ⟨some rt, some cd⟩, none, none⟩ =
      ⟨200, successJsonIndex t⟩) := by
  have e1 : rt.isEmpty = false := List.isEmpty_eq_false.mpr h1
  have e2 : cd.isEmpty = false := List.isEmpty_eq_false.mpr h2
  refine ⟨⟨toB64 (checkTokenPlain001 (utf8Decode (base64Decode rt)) cd), ?_⟩,
    ⟨toB64 (checkTokenPlain001 (utf8Decode (base64Decode rt)) cd), ?_⟩,
    ⟨toB64 (checkTokenPlainIndex (utf8Decode (base64Decode rt)) cd), ?_⟩,
    ⟨toB64 (checkTokenPlainIndex (utf8Decode (base64Decode rt)) cd), ?_⟩⟩ <;>
    simp [checkTokenHandler001, checkTokenHandlerIndex, rt001, cd001, rtIndex, cdIndex,
      jsFalsy, e1, e2]

/-- Witness for C9 at concrete nonempty inputs. -/
theorem checktoken_nonempty_inputs_success_witness :
    ∃ t, checkTokenHandler001 ⟨none, some (toL ("AA")), some (toL ("x"))⟩ =
      ⟨200, successJson001 t⟩ :=
  (checktoken_nonempty_inputs_success (toL ("AA")) (toL ("x")) (by decide) (by decide)).1

/-- Claim C10: in the legacy-blob loop a token starting with `|` (empty
key) is discarded, while a token `key|` with nonempty key and empty value
is kept and maps the key to the empty string. -/
theorem legacy_parser_edge_tokens :
    (∀ t v, legacyLine t ('|' :: v) = t) ∧
    (∀ t k, k ≠ [] → '|' ∉ k → legacyLine t (k ++ ['|']) = jsInsert t k []) := by
  constructor
  · intro t v
    unfold legacyLine
    rw [show findSplit ['|'] ('|' :: v) = some ([], v) from findSplit_self ['|'] v]
    simp
  · intro t k hk hp
    unfold legacyLine
    rw [findSplit_pipe k [] hp]
    simp [List.isEmpty_eq_false.mpr hk]

/-- Witness for C10 at concrete tokens. -/
theorem legacy_parser_edge_tokens_witness :
    legacyLine [] ('|' :: toL ("v")) = [] ∧
    legacyLine [] (toL ("a") ++ ['|']) = jsInsert [] (toL ("a")) [] :=
  ⟨legacy_parser_edge_tokens.1 [] (toL ("v")),
   legacy_parser_edge_tokens.2 [] (toL ("a")) (by decide) (by decide)⟩

end GrowLogin
